import Mathlib

/-!
Shallow embedding of the lookup-and-formatting engine of
`digital-nagrik-mitra-mcp/mcp_server.py`.

Modelling conventions:
* Python strings are Lean `String` (a structure over `List Char`); `str.lower`
  is modelled character-wise by `Char.toLower`, which agrees with Python on the
  ASCII range that the data and queries use.
* A JSON record is a structure with `Option` fields: `none` models an absent
  key.  `fees : Option (List (String × String))` models a present-`dict` value
  (insertion ordered); a present non-`dict` value behaves like `none` because
  the source guards with `isinstance(..., dict)`.  `procedure` models
  `service_info.get('procedure', [])`, so an absent key is the empty list.
* `load_data` touches the filesystem, so the load outcome is passed to the
  operations as `Except String table`: `Except.error e` models the `McpError`
  raised by `load_data` with `str(e) = e`.  Both tools catch every exception in
  their own `except Exception` block and return the apology string, which is
  modelled by `errorApology`.
* Accessing a missing `'name'` key raises `KeyError('name')`, whose `str` is
  `'name'` (with quotes); `keyErrorName` is that string, and the scan
  `next(s for s in services if s['name'].lower() == ...)` is modelled by
  `findService`, which stops with that error when it reaches a nameless record
  before finding a match, exactly as the lazy generator does.
-/

/-- Python `str.split()` with no separator: split on whitespace runs and drop
empty pieces.  The accumulator holds the current token, reversed. -/
def splitWsAux : List Char → List Char → List (List Char)
  | [], [] => []
  | [], acc => [acc.reverse]
  | c :: cs, acc =>
    if c.isWhitespace then
      if acc = [] then splitWsAux cs [] else acc.reverse :: splitWsAux cs []
    else splitWsAux cs (c :: acc)

/-- Tokens of a character list, as Python `str.split()` produces them. -/
def splitWs (l : List Char) : List (List Char) := splitWsAux l []

/-- Python `' '.join(tokens)`. -/
def joinSpace : List (List Char) → List Char
  | [] => []
  | [t] => t
  | t :: ts => t ++ ' ' :: joinSpace ts

/-- Python `.replace('&', 'and')` on the character list. -/
def ampExpand : List Char → List Char
  | [] => []
  | c :: cs => if c = '&' then 'a' :: 'n' :: 'd' :: ampExpand cs else c :: ampExpand cs

/-- Python `.replace('  ', ' ')`: scan left to right; on a double space emit
one space and skip both, otherwise move one character forward. -/
def replaceDoubleSpace : List Char → List Char
  | [] => []
  | [c] => [c]
  | c :: d :: rest =>
    if c = ' ' ∧ d = ' ' then ' ' :: replaceDoubleSpace rest
    else c :: replaceDoubleSpace (d :: rest)

/-- Python `.strip()`: drop whitespace from both ends. -/
def stripEnds (l : List Char) : List Char :=
  ((l.dropWhile Char.isWhitespace).reverse.dropWhile Char.isWhitespace).reverse

/-- Python `str.lower()` restricted to the ASCII letters, character-wise. -/
def lowerStr (s : String) : String := ⟨s.data.map Char.toLower⟩

/-- Body of `normalize_category` (mcp_server.py lines 213-221) on a string that
passed the falsiness test: lowercase, replace `&` by `and`, replace double
spaces, strip, split on whitespace and rejoin with single spaces. -/
def normalizeStr (s : String) : String :=
  ⟨joinSpace (splitWs (stripEnds (replaceDoubleSpace (ampExpand (lowerStr s).data))))⟩

/-- `normalize_category(cat)` for `cat = s.get('category')`: `None` (absent)
and the empty string are falsy and normalize to `''`. -/
def normalize_category : Option String → String
  | none => ""
  | some c => if c = "" then "" else normalizeStr c

/-- One record of `services.json` as `seva` consumes it. -/
structure ServiceRecord where
  name : Option String
  fees : Option (List (String × String))
  procedure : List String
  documents_required : Option (List String)
  official_link : Option String
  deriving DecidableEq

/-- One record of `schemes.json` as `yojana` consumes it. -/
structure SchemeRecord where
  name : Option String
  category : Option String
  description : Option String
  eligibility_criteria : Option String
  benefits : Option (List String)
  official_link : Option String
  deriving DecidableEq

/-- Python `str(KeyError('name'))`. -/
def keyErrorName : String := "\x27name\x27"

/-- Message produced by the generic `except Exception` handler of both tools:
`f"❌ An error occurred while processing your request: {str(e)}"`. -/
def errorApology (e : String) : String :=
  "❌ An error occurred while processing your request: " ++ e

/-- The scan `next((s for s in services if s['name'].lower() ==
service_name.lower()), None)`.  Evaluating the predicate on a record with no
`name` key raises `KeyError('name')`; records after the first match are never
inspected. -/
def findService : List ServiceRecord → String → Except String (Option ServiceRecord)
  | [], _ => Except.ok none
  | s :: rest, q =>
    match s.name with
    | none => Except.error keyErrorName
    | some n =>
      if lowerStr n = lowerStr q then Except.ok (some s) else findService rest q

/-- The eager comprehension `[s['name'] for s in services]`: fails with
`KeyError('name')` as soon as any record lacks a name. -/
def allServiceNames : List ServiceRecord → Except String (List String)
  | [] => Except.ok []
  | s :: rest =>
    match s.name with
    | none => Except.error keyErrorName
    | some n => (allServiceNames rest).map (fun ns => n :: ns)

/-- Python `", ".join(names)`. -/
def joinComma : List String → String
  | [] => ""
  | [x] => x
  | x :: xs => x ++ ", " ++ joinComma xs

/-- Concatenation of a list of strings, modelling repeated `response += ...`. -/
def concatStrs : List String → String
  | [] => ""
  | s :: ss => s ++ concatStrs ss

/-- Fees block of the `seva` guide (lines 153-158): emitted whenever `fees` is
present as a dict, even an empty one; one line per fee type, then a blank
line. -/
def feesSection (r : ServiceRecord) : String :=
  match r.fees with
  | none => ""
  | some fs =>
    "💰 *Fees:*\n" ++ concatStrs (fs.map (fun p => "- *" ++ p.1 ++ ":* " ++ p.2 ++ "\n")) ++ "\n"

/-- The numbered lines produced by `enumerate(service_info.get('procedure', []), 1)`. -/
def numberedSteps : Nat → List String → String
  | _, [] => ""
  | i, s :: ss => toString i ++ ". " ++ s ++ "\n" ++ numberedSteps (i + 1) ss

/-- Procedure block (lines 160-162): the header is emitted unconditionally. -/
def procSection (r : ServiceRecord) : String :=
  "📝 *Procedure:*\n" ++ numberedSteps 1 r.procedure

/-- Documents block (lines 164-167): emitted only when `documents_required` is
present and truthy (a non-empty list). -/
def docsSection (r : ServiceRecord) : String :=
  match r.documents_required with
  | none => ""
  | some ds =>
    if ds = [] then ""
    else "\n📄 *Documents Required:*\n" ++ concatStrs (ds.map (fun d => "- " ++ d ++ "\n"))

/-- Official-link block (lines 169-170): emitted only when `official_link` is
present and truthy (a non-empty string). -/
def linkSection (r : ServiceRecord) : String :=
  match r.official_link with
  | none => ""
  | some l => if l = "" then "" else "\n🔗 *Official Link:* " ++ l

/-- The full guide rendered for a found service record whose name is `n`. -/
def renderService (n : String) (r : ServiceRecord) : String :=
  "📜 *Guide for " ++ n ++ "*\n\n" ++ feesSection r ++ procSection r ++ docsSection r
    ++ linkSection r ++ "\n\n🔄 *Need more help?* Ask me about any step!"

/-- `seva` after a successful load (lines 141-175): scan, not-found message
listing every service name, or the rendered guide; any exception is turned
into the apology string by the handler at line 177. -/
def sevaTable (services : List ServiceRecord) (service_name : String) : String :=
  match findService services service_name with
  | Except.error e => errorApology e
  | Except.ok none =>
    match allServiceNames services with
    | Except.error e => errorApology e
    | Except.ok ns =>
      "❌ Service not found: " ++ service_name ++ ". Available services are: "
        ++ joinComma ns ++ "."
  | Except.ok (some r) =>
    match r.name with
    | none => errorApology keyErrorName
    | some n => renderService n r

/-- The `seva` tool: a failed `load_data` raises `McpError`, which the handler
at line 177 converts to the apology string. -/
def seva (load : Except String (List ServiceRecord)) (service_name : String) : String :=
  match load with
  | Except.error e => errorApology e
  | Except.ok services => sevaTable services service_name

/-- Message returned by `yojana` for a successfully loaded empty table (line 202). -/
def noSchemesMsg : String := "❌ No schemes available at the moment. Please check back later."

/-- Bullet lines `f"- \x7bcat\x7d\n"` for a list of categories. -/
def bullets (cats : List String) : String :=
  concatStrs (cats.map (fun c => "- " ++ c ++ "\n"))

/-- The listing `sorted(list(set(s.get('category', 'Uncategorized') for s in
schemes)))`: the sorted list of distinct category values, with `Uncategorized`
standing in for an absent category (lines 205 and 230). -/
def categoriesOf (schemes : List SchemeRecord) : List String :=
  List.insertionSort (fun a b => a ≤ b)
    ((schemes.map (fun s => s.category.getD "Uncategorized")).dedup)

/-- Category listing returned when the query is falsy (lines 206-210). -/
def catListing (schemes : List SchemeRecord) : String :=
  "🌟 *Available Scheme Categories:*\n" ++ bullets (categoriesOf schemes)
    ++ "\nTo see schemes in a category, use `/yojana [category_name]`."

/-- `category_schemes` (lines 224-225): records whose normalized category
equals the normalized query. -/
def category_schemes (schemes : List SchemeRecord) (q : String) : List SchemeRecord :=
  schemes.filter (fun s => normalize_category s.category == normalize_category (some q))

/-- No-match message (lines 228-233).  The first line is a plain string
literal in the source, not an f-string, so the characters `\x7bcategory\x7d`
appear literally and the query is not interpolated. -/
def noMatchMsg (schemes : List SchemeRecord) : String :=
  "❌ No schemes found in the '\x7bcategory\x7d' category.\n\nAvailable categories are:\n"
    ++ bullets (categoriesOf schemes)

/-- The separator `"-"*30`. -/
def sepLine : String := String.mk (List.replicate 30 '-')

/-- Rendering of one matched scheme (lines 236-250): description, eligibility
and official link are emitted on key presence alone; benefits require a
present list value. -/
def renderScheme (s : SchemeRecord) : String :=
  "🔹 *" ++ (s.name.getD "Unnamed Scheme") ++ "*\n\n"
    ++ (match s.description with
        | none => ""
        | some d => "📝 *Description:* " ++ d ++ "\n\n")
    ++ (match s.eligibility_criteria with
        | none => ""
        | some e => "✅ *Eligibility Criteria:* " ++ e ++ "\n\n")
    ++ (match s.benefits with
        | none => ""
        | some bs => "💡 *Key Benefits:*\n" ++ concatStrs (bs.map (fun b => "  • " ++ b ++ "\n")) ++ "\n")
    ++ (match s.official_link with
        | none => ""
        | some l => "🔗 *Official Link:* " ++ l ++ "\n")
    ++ "\n" ++ sepLine ++ "\n\n"

/-- Python `response.rstrip("\n" + "-"*30 + "\n\n")`: strips every trailing
character belonging to the character set of the argument, here newline and
dash. -/
def rstripSet (s : String) : String :=
  ⟨(s.data.reverse.dropWhile (fun c => c = '\n' || c = '-')).reverse⟩

/-- The category-match branch of `yojana` for a truthy query (lines 223-254). -/
def matchBranch (schemes : List SchemeRecord) (q : String) : String :=
  if category_schemes schemes q = [] then noMatchMsg schemes
  else
    rstripSet ("📚 *Schemes in " ++ q ++ ":*\n\n"
        ++ concatStrs ((category_schemes schemes q).map renderScheme))
      ++ "\n\n*Need more details?* Ask me about any scheme!"

/-- `yojana` after a successful load (lines 200-254): empty table, category
listing for a falsy query, or the category-match branch. -/
def yojanaTable (schemes : List SchemeRecord) (category : Option String) : String :=
  if schemes = [] then noSchemesMsg
  else
    match category with
    | none => catListing schemes
    | some q => if q = "" then catListing schemes else matchBranch schemes q

/-- The `yojana` tool: a failed `load_data` raises `McpError`, which the
handler at line 256 converts to the apology string. -/
def yojana (load : Except String (List SchemeRecord)) (category : Option String) : String :=
  match load with
  | Except.error e => errorApology e
  | Except.ok schemes => yojanaTable schemes category

/-- Substring containment: `t` occurs inside `s`. -/
def containsStr (s t : String) : Prop := t.data <:+: s.data

instance (s t : String) : Decidable (containsStr s t) :=
  List.decidableInfix t.data s.data

/-- The predicate of the `seva` scan on a named record: lowercased full-string
equality of the `name` field with the query. -/
def nameMatches (q : String) (s : ServiceRecord) : Bool :=
  match s.name with
  | none => false
  | some n => lowerStr n == lowerStr q

/-- Record missing the required `name` key, used for claim C8. -/
def namelessRecord : ServiceRecord := ⟨none, none, [], none, none⟩

/-- Well-formed record placed after the malformed one, used for claim C8. -/
def passportRecord : ServiceRecord := ⟨some "Passport", none, ["Fill form"], none, none⟩

/-- Scheme used for the C5 failing input. -/
def eduScheme : SchemeRecord :=
  ⟨some "Scheme A", some "Education", some "Basic schooling support", none, none, none⟩

/-- Keyword search as claim C1 states it, written from the specification text
for refinement comparison (not from the source): every lowercase
whitespace-delimited token of the query must occur as a substring of the
lowercased concatenation of category, name and description joined by single
spaces. -/
def specKeywordMatch (q : String) (s : SchemeRecord) : Prop :=
  ∀ tok ∈ splitWs (lowerStr q).data,
    tok <:+: (lowerStr ((s.category.getD "") ++ " " ++ (s.name.getD "") ++ " "
      ++ (s.description.getD ""))).data

instance (q : String) (s : SchemeRecord) : Decidable (specKeywordMatch q s) :=
  List.decidableBAll _ _

/-- Scheme whose description contains `Pensioner`, used for claim C1. -/
def pensionerScheme : SchemeRecord :=
  ⟨some "Old Age Support", some "Social Security", some "Monthly aid for every Pensioner",
    none, none, none⟩

/-- Scheme without a `category` key, used for claim C6. -/
def schemeNoCategory : SchemeRecord := ⟨some "Scheme B", none, none, none, none, none⟩

/-- Category values literally present in a table, as claim C6 states it
(written from the spec text, for refinement comparison with `categoriesOf`). -/
def specPresentCategories (schemes : List SchemeRecord) : List String :=
  schemes.filterMap (fun s => s.category)

/-- Scheme in the category `Health & Wellness`, used for claim C9. -/
def wellnessScheme : SchemeRecord :=
  ⟨some "Wellness Scheme", some "Health & Wellness", none, none, none, none⟩

/-- Every character of the list is whitespace. -/
def allWs (l : List Char) : Prop := ∀ c ∈ l, c.isWhitespace = true

instance (l : List Char) : Decidable (allWs l) := List.decidableBAll _ l

/-- A record whose `category` is absent, empty, or whitespace-only: exactly
the records whose category normalizes to the empty string. -/
def blankCategory (s : SchemeRecord) : Bool :=
  match s.category with
  | none => true
  | some c => c.data.all (fun d => d.isWhitespace)

/-- Record with only a name (no fees, empty procedure, no documents, no
link), used for claim C3. -/
def bareRecord : ServiceRecord := ⟨some "X", none, [], none, none⟩

/-- Fully populated record used as the witness input for claim C3. -/
def passportFull : ServiceRecord :=
  ⟨some "Passport", some [("Normal", "Rs 1500")], ["Fill form", "Submit docs"],
    some ["Aadhaar card"], some "https://passportindia.gov.in"⟩

theorem data_append (s t : String) : (s ++ t).data = s.data ++ t.data := by
  cases s; cases t; rfl

theorem containsStr_refl (s : String) : containsStr s s := List.infix_refl _

theorem containsStr_appendL {s u : String} (t : String) (h : containsStr s u) :
    containsStr (s ++ t) u := by
  obtain ⟨p, q, hpq⟩ := h
  exact ⟨p, q ++ t.data, by rw [data_append, ← hpq]; simp⟩

theorem containsStr_appendR {s u : String} (t : String) (h : containsStr s u) :
    containsStr (t ++ s) u := by
  obtain ⟨p, q, hpq⟩ := h
  exact ⟨t.data ++ p, q, by rw [data_append, ← hpq]; simp⟩

theorem contains_concatStrs {α : Type} {f : α → String} {l : List α} {x : α} (h : x ∈ l) :
    containsStr (concatStrs (l.map f)) (f x) := by
  induction l with
  | nil => cases h
  | cons a as ih =>
    rcases List.mem_cons.mp h with h' | h'
    · subst h'
      exact containsStr_appendL _ (containsStr_refl _)
    · exact containsStr_appendR _ (ih h')

theorem contains_numberedSteps (steps : List String) :
    ∀ i k step, steps.get? k = some step →
      containsStr (numberedSteps i steps) (toString (i + k) ++ ". " ++ step ++ "\n") := by
  induction steps with
  | nil => intro i k step h; cases h
  | cons s ss ih =>
    intro i k step h
    cases k with
    | zero =>
      have hs : s = step := by simpa using h
      subst hs
      have : i + 0 = i := Nat.add_zero i
      rw [this]
      exact containsStr_appendL _ (containsStr_refl _)
    | succ m =>
      have hrec := ih (i + 1) m step (by simpa using h)
      have : i + (m + 1) = (i + 1) + m := by omega
      rw [this]
      exact containsStr_appendR _ hrec

/-- C7: for a fixed load outcome and a fixed argument, two invocations of
`seva` or `yojana` return byte-identical strings; both operations are pure
functions of the table and the argument, with no clock or randomness. -/
theorem determinism_seva_yojana (l l' : Except String (List ServiceRecord))
    (m m' : Except String (List SchemeRecord)) (q q' : String) (c c' : Option String)
    (hl : l = l') (hm : m = m') (hq : q = q') (hc : c = c') :
    seva l q = seva l' q' ∧ yojana m c = yojana m' c' := by
  subst hl; subst hm; subst hq; subst hc
  exact ⟨rfl, rfl⟩

/-- Witness for C7 at a concrete load outcome and argument. -/
theorem determinism_seva_yojana_witness :
    seva (Except.ok []) "Passport" = seva (Except.ok []) "Passport"
      ∧ yojana (Except.ok []) none = yojana (Except.ok []) none :=
  determinism_seva_yojana _ _ _ _ _ _ _ _ rfl rfl rfl rfl

/-- C4: on a table whose records all carry a name, the `seva` scan returns the
first record (in table order) whose name equals the query under
case-insensitive full-string equality, and `seva` renders exactly that
record; duplicates are resolved first-match-wins by `List.find?`. -/
theorem seva_first_match (table : List ServiceRecord) (q : String)
    (h : ∀ r ∈ table, r.name ≠ none) :
    findService table q = Except.ok (table.find? (nameMatches q))
  ∧ (∀ r n, table.find? (nameMatches q) = some r → r.name = some n →
      sevaTable table q = renderService n r) := by
  have key : findService table q = Except.ok (table.find? (nameMatches q)) := by
    induction table with
    | nil => rfl
    | cons s rest ih =>
      cases hn : s.name with
      | none => exact absurd hn (h s (List.mem_cons_self s rest))
      | some n =>
        by_cases he : lowerStr n = lowerStr q
        · have hp : nameMatches q s = true := by simp [nameMatches, hn, he]
          simp [findService, hn, he, List.find?_cons_of_pos _ hp]
        · have hp : ¬ nameMatches q s = true := by simp [nameMatches, hn, he]
          rw [List.find?_cons_of_neg _ hp]
          simpa [findService, hn, he] using ih (fun r hr => h r (List.mem_cons_of_mem _ hr))
  refine ⟨key, fun r n hfind hname => ?_⟩
  rw [sevaTable, key, hfind]
  simp [hname]

/-- Witness for C4: the query `"Pan CARD"` selects the first of two records
whose names differ only in casing. -/
theorem seva_first_match_witness :
    (∀ r ∈ ([⟨some "Passport", none, [], none, none⟩,
             ⟨some "PAN Card", none, [], none, none⟩,
             ⟨some "pan card", none, [], none, none⟩] : List ServiceRecord), r.name ≠ none)
  ∧ (findService [⟨some "Passport", none, [], none, none⟩,
        ⟨some "PAN Card", none, [], none, none⟩,
        ⟨some "pan card", none, [], none, none⟩] "Pan CARD"
      = Except.ok (([⟨some "Passport", none, [], none, none⟩,
          ⟨some "PAN Card", none, [], none, none⟩,
          ⟨some "pan card", none, [], none, none⟩] : List ServiceRecord).find?
            (nameMatches "Pan CARD"))
  ∧ (∀ r n, (([⟨some "Passport", none, [], none, none⟩,
        ⟨some "PAN Card", none, [], none, none⟩,
        ⟨some "pan card", none, [], none, none⟩] : List ServiceRecord).find?
          (nameMatches "Pan CARD")) = some r → r.name = some n →
      sevaTable [⟨some "Passport", none, [], none, none⟩,
        ⟨some "PAN Card", none, [], none, none⟩,
        ⟨some "pan card", none, [], none, none⟩] "Pan CARD" = renderService n r)) :=
  ⟨by decide, seva_first_match _ "Pan CARD" (by decide)⟩

/-- C8 counterexample: the malformed record is not skipped; with it in front,
`seva` can no longer match the record behind it and returns a different
(error) string than it would for the clean table. -/
theorem malformed_record_not_skipped :
    sevaTable [namelessRecord, passportRecord] "Passport"
      = errorApology keyErrorName
  ∧ sevaTable [namelessRecord, passportRecord] "Passport"
      ≠ sevaTable [passportRecord] "Passport" := by
  refine ⟨rfl, ?_⟩
  decide

/-- C8 amended: a record lacking `name` stops the scan exactly when it is
reached, that is when no record before it matched; records before it can
still be matched, and when the scan reaches the malformed record `seva`
returns the apology string for `KeyError('name')` rather than raising. -/
theorem malformed_record_aborts_scan (t1 t2 : List ServiceRecord) (bad : ServiceRecord)
    (q : String) (hbad : bad.name = none) :
    findService (t1 ++ bad :: t2) q =
      (match findService t1 q with
       | Except.ok none => Except.error keyErrorName
       | r => r)
  ∧ (findService t1 q = Except.ok none →
      sevaTable (t1 ++ bad :: t2) q = errorApology keyErrorName) := by
  have key : findService (t1 ++ bad :: t2) q =
      (match findService t1 q with
       | Except.ok none => Except.error keyErrorName
       | r => r) := by
    induction t1 with
    | nil => simp [findService, hbad]
    | cons s rest ih =>
      cases hn : s.name with
      | none => simp [findService, hn]
      | some n =>
        by_cases he : lowerStr n = lowerStr q
        · simp [findService, hn, he]
        · simpa [findService, hn, he] using ih
  refine ⟨key, fun h0 => ?_⟩
  have herr : findService (t1 ++ bad :: t2) q = Except.error keyErrorName := by
    rw [key, h0]
  rw [sevaTable, herr]

/-- Witness for C8 at a concrete table: one well-named non-matching record in
front, the malformed record, then the sought record. -/
theorem malformed_record_aborts_scan_witness :
    namelessRecord.name = none
  ∧ (findService ([⟨some "Aadhaar", none, [], none, none⟩] ++ namelessRecord :: [passportRecord]) "Passport"
      = (match findService [⟨some "Aadhaar", none, [], none, none⟩] "Passport" with
         | Except.ok none => Except.error keyErrorName
         | r => r)
  ∧ (findService [⟨some "Aadhaar", none, [], none, none⟩] "Passport" = Except.ok none →
      sevaTable ([⟨some "Aadhaar", none, [], none, none⟩] ++ namelessRecord :: [passportRecord]) "Passport"
        = errorApology keyErrorName)) :=
  ⟨rfl, malformed_record_aborts_scan [⟨some "Aadhaar", none, [], none, none⟩]
    [passportRecord] namelessRecord "Passport" rfl⟩

set_option maxRecDepth 8192 in

/-- C5: at the failing input (a table with only an `Education` scheme and the
query `"Health"`), the no-match message contains the literal characters
`\x7bcategory\x7d` — the source line is a plain string, not an f-string — and
does not contain the query the caller supplied. -/
theorem no_match_message_drops_query :
    yojanaTable [eduScheme] (some "Health") = noMatchMsg [eduScheme]
  ∧ containsStr (yojanaTable [eduScheme] (some "Health")) "\x7bcategory\x7d"
  ∧ ¬ containsStr (yojanaTable [eduScheme] (some "Health")) "Health" := by
  refine ⟨rfl, ?_, ?_⟩ <;> decide

/-- C1 counterexample: the record satisfies the claimed keyword match for the
query `"pension"` (its description contains `Pensioner`), yet `yojana` selects
nothing and answers with the no-match message, because the code compares
normalized categories for equality instead of searching keywords. -/
theorem yojana_not_keyword_search :
    specKeywordMatch "pension" pensionerScheme
  ∧ category_schemes [pensionerScheme] "pension" = []
  ∧ yojanaTable [pensionerScheme] (some "pension") = noMatchMsg [pensionerScheme] := by
  refine ⟨?_, ?_, ?_⟩ <;> decide

/-- C1 amended: for every scheme table and query, a record is selected exactly
when it belongs to the table and its normalized category (lowercased, `&`
replaced by `and`, whitespace collapsed and trimmed) equals the normalized
query; the name and description fields play no part in selection. -/
theorem yojana_selects_by_normalized_category (schemes : List SchemeRecord) (q : String)
    (s : SchemeRecord) :
    s ∈ category_schemes schemes q
      ↔ s ∈ schemes ∧ normalize_category s.category = normalize_category (some q) := by
  simp [category_schemes, List.mem_filter]

set_option maxRecDepth 8192 in

/-- C2 counterexample: on a missing data file, `yojana` returns the generic
error apology naming the load error, which is not the no-data message the
code reserves for a successfully loaded empty table. -/
theorem missing_file_error_not_no_data :
    yojana (Except.error "Data file not found: schemes.json") (some "Health")
      = errorApology "Data file not found: schemes.json"
  ∧ yojana (Except.error "Data file not found: schemes.json") (some "Health") ≠ noSchemesMsg
  ∧ ¬ containsStr (yojana (Except.error "Data file not found: schemes.json") (some "Health"))
      "No schemes available" := by
  refine ⟨rfl, ?_, ?_⟩ <;> decide

/-- C2 amended: for every load error and every argument, both tools return a
user-facing message string (the generic apology carrying the error text) and
never propagate an exception — in the model both operations are total
functions into `String`; the literal no-data message appears only for a
successfully loaded empty scheme table. -/
theorem load_failure_yields_message (e : String) (q : String) (c : Option String) :
    seva (Except.error e) q = errorApology e
  ∧ yojana (Except.error e) c = errorApology e
  ∧ yojanaTable [] c = noSchemesMsg :=
  ⟨rfl, rfl, rfl⟩

/-- C6 counterexample: for a table whose only record has no category, the
listing shows the bullet `- Uncategorized` although no category value is
present in the table. -/
theorem category_listing_invents_uncategorized :
    yojanaTable [schemeNoCategory] none = catListing [schemeNoCategory]
  ∧ containsStr (yojanaTable [schemeNoCategory] none) "- Uncategorized\n"
  ∧ specPresentCategories [schemeNoCategory] = [] := by
  refine ⟨rfl, ?_, rfl⟩
  decide

/-- C6 amended: for every non-empty scheme table, `yojana` with an absent
query renders the deduplicated category values, with `Uncategorized` standing
in for each record whose category is absent, sorted ascending (lexicographic,
case-sensitive), one bullet per category, followed by the usage hint. -/
theorem category_listing_sorted_dedup (schemes : List SchemeRecord) (h : schemes ≠ []) :
    yojanaTable schemes none =
      "🌟 *Available Scheme Categories:*\n" ++ bullets (categoriesOf schemes)
        ++ "\nTo see schemes in a category, use `/yojana [category_name]`."
  ∧ List.Sorted (fun a b => a ≤ b) (categoriesOf schemes)
  ∧ (categoriesOf schemes).Nodup
  ∧ ∀ c, c ∈ categoriesOf schemes
      ↔ c ∈ schemes.map (fun s => s.category.getD "Uncategorized") := by
  refine ⟨?_, ?_, ?_, fun c => ?_⟩
  · simp [yojanaTable, h, catListing]
  · exact List.sorted_insertionSort _ _
  · exact ((List.perm_insertionSort _ _).nodup_iff).mpr (List.nodup_dedup _)
  · simp [categoriesOf, (List.perm_insertionSort
      (fun a b : String => a ≤ b)
      ((schemes.map (fun s => s.category.getD "Uncategorized")).dedup)).mem_iff,
      List.mem_dedup]

/-- Witness for C6 at a concrete three-record table with duplicate categories. -/
theorem category_listing_sorted_dedup_witness :
    (([⟨some "S1", some "Health", none, none, none, none⟩,
       ⟨some "S2", some "Education", none, none, none, none⟩,
       ⟨some "S3", some "Health", none, none, none, none⟩] : List SchemeRecord) ≠ [])
  ∧ (yojanaTable [⟨some "S1", some "Health", none, none, none, none⟩,
       ⟨some "S2", some "Education", none, none, none, none⟩,
       ⟨some "S3", some "Health", none, none, none, none⟩] none =
      "🌟 *Available Scheme Categories:*\n"
        ++ bullets (categoriesOf [⟨some "S1", some "Health", none, none, none, none⟩,
             ⟨some "S2", some "Education", none, none, none, none⟩,
             ⟨some "S3", some "Health", none, none, none, none⟩])
        ++ "\nTo see schemes in a category, use `/yojana [category_name]`."
  ∧ List.Sorted (fun a b => a ≤ b)
      (categoriesOf [⟨some "S1", some "Health", none, none, none, none⟩,
        ⟨some "S2", some "Education", none, none, none, none⟩,
        ⟨some "S3", some "Health", none, none, none, none⟩])
  ∧ (categoriesOf [⟨some "S1", some "Health", none, none, none, none⟩,
       ⟨some "S2", some "Education", none, none, none, none⟩,
       ⟨some "S3", some "Health", none, none, none, none⟩]).Nodup
  ∧ ∀ c, c ∈ categoriesOf [⟨some "S1", some "Health", none, none, none, none⟩,
        ⟨some "S2", some "Education", none, none, none, none⟩,
        ⟨some "S3", some "Health", none, none, none, none⟩]
      ↔ c ∈ ([⟨some "S1", some "Health", none, none, none, none⟩,
           ⟨some "S2", some "Education", none, none, none, none⟩,
           ⟨some "S3", some "Health", none, none, none, none⟩] : List SchemeRecord).map
             (fun s => s.category.getD "Uncategorized")) :=
  ⟨by decide, category_listing_sorted_dedup _ (by decide)⟩

/-- C9: two queries with equal normal forms select exactly the same records,
and any record whose normalized category equals the normalized query is
selected. -/
theorem normalized_queries_select_same (schemes : List SchemeRecord) (q1 q2 : String)
    (s : SchemeRecord)
    (hnorm : normalize_category (some q1) = normalize_category (some q2)) :
    category_schemes schemes q1 = category_schemes schemes q2
  ∧ (s ∈ schemes → normalize_category s.category = normalize_category (some q1) →
      s ∈ category_schemes schemes q1) := by
  refine ⟨?_, fun hmem heq => ?_⟩
  · unfold category_schemes
    rw [hnorm]
  · simp [category_schemes, List.mem_filter, hmem, heq]

/-- Witness for C9: the query `"health and wellness"` and the category
`"Health & Wellness"` have the same normal form, so the record is selected. -/
theorem normalized_queries_select_same_witness :
    normalize_category (some "health and wellness")
      = normalize_category (some "Health & Wellness")
  ∧ (category_schemes [wellnessScheme] "health and wellness"
      = category_schemes [wellnessScheme] "Health & Wellness"
  ∧ (wellnessScheme ∈ [wellnessScheme] →
      normalize_category wellnessScheme.category
        = normalize_category (some "health and wellness") →
      wellnessScheme ∈ category_schemes [wellnessScheme] "health and wellness")) :=
  ⟨by decide, normalized_queries_select_same [wellnessScheme]
    "health and wellness" "Health & Wellness" wellnessScheme (by decide)⟩

theorem allWs_nil : allWs [] := fun c hc => absurd hc (List.not_mem_nil c)

theorem allWs_cons {c : Char} {l : List Char} :
    allWs (c :: l) ↔ c.isWhitespace = true ∧ allWs l := by
  constructor
  · intro h
    exact ⟨h c (List.mem_cons_self c l), fun d hd => h d (List.mem_cons_of_mem _ hd)⟩
  · rintro ⟨h1, h2⟩ d hd
    rcases List.mem_cons.mp hd with h' | h'
    · subst h'; exact h1
    · exact h2 d h'

theorem isWhitespace_toLower (c : Char) :
    (Char.toLower c).isWhitespace = c.isWhitespace := by
  have key : ∀ m : Nat, 65 ≤ m → m ≤ 90 → (Char.ofNat (m + 32)).isWhitespace = false := by
    intro m h1 h2
    interval_cases m <;> decide
  simp only [Char.toLower]
  split
  case isTrue h =>
    have hec : c.isWhitespace = false := by
      cases hx : c.isWhitespace with
      | false => rfl
      | true =>
        exfalso
        simp [Char.isWhitespace] at hx
        rcases hx with ((h' | h') | h') | h' <;> (subst h'; exact absurd h (by decide))
    rw [hec]
    exact key c.toNat h.1 h.2
  case isFalse h => rfl

theorem allWs_map_toLower {l : List Char} : allWs (l.map Char.toLower) ↔ allWs l := by
  induction l with
  | nil => exact Iff.rfl
  | cons c cs ih =>
    simp only [List.map_cons, allWs_cons, isWhitespace_toLower, ih]

theorem allWs_ampExpand {l : List Char} : allWs (ampExpand l) ↔ allWs l := by
  induction l with
  | nil => exact Iff.rfl
  | cons c cs ih =>
    by_cases hc : c = '&'
    · subst hc
      have he : ampExpand ('&' :: cs) = 'a' :: 'n' :: 'd' :: ampExpand cs := by
        simp [ampExpand]
      rw [he, allWs_cons, allWs_cons, allWs_cons, ih, allWs_cons]
      constructor
      · rintro ⟨ha, _⟩; exact absurd ha (by decide)
      · rintro ⟨ha, _⟩; exact absurd ha (by decide)
    · have he : ampExpand (c :: cs) = c :: ampExpand cs := by
        simp [ampExpand, hc]
      rw [he, allWs_cons, ih, allWs_cons]

theorem allWs_replaceDoubleSpace {l : List Char} :
    allWs (replaceDoubleSpace l) ↔ allWs l := by
  induction l using replaceDoubleSpace.induct with
  | case1 => exact Iff.rfl
  | case2 c => exact Iff.rfl
  | case3 c d rest h ih =>
    obtain ⟨hc, hd⟩ := h
    subst hc; subst hd
    have he : replaceDoubleSpace (' ' :: ' ' :: rest) = ' ' :: replaceDoubleSpace rest := by
      simp [replaceDoubleSpace]
    rw [he, allWs_cons, ih, allWs_cons, allWs_cons]
    constructor
    · rintro ⟨h1, h2⟩; exact ⟨h1, h1, h2⟩
    · rintro ⟨h1, _, h3⟩; exact ⟨h1, h3⟩
  | case4 c d rest h ih =>
    have he : replaceDoubleSpace (c :: d :: rest) = c :: replaceDoubleSpace (d :: rest) := by
      simp [replaceDoubleSpace, h]
    rw [he, allWs_cons, ih, allWs_cons, allWs_cons, allWs_cons]

theorem allWs_dropWhile {l : List Char} :
    allWs (l.dropWhile Char.isWhitespace) ↔ allWs l := by
  induction l with
  | nil => exact Iff.rfl
  | cons c cs ih =>
    cases hc : c.isWhitespace with
    | false => simp [List.dropWhile_cons, hc]
    | true => simp [List.dropWhile_cons, hc, allWs_cons, ih]

theorem allWs_reverse {l : List Char} : allWs l.reverse ↔ allWs l := by
  unfold allWs
  constructor <;> intro h c hc
  · exact h c (List.mem_reverse.mpr hc)
  · exact h c (List.mem_reverse.mp hc)

theorem allWs_stripEnds {l : List Char} : allWs (stripEnds l) ↔ allWs l := by
  unfold stripEnds
  rw [allWs_reverse, allWs_dropWhile, allWs_reverse, allWs_dropWhile]

theorem splitWsAux_tokens_ne_nil :
    ∀ (l acc : List Char), ∀ t ∈ splitWsAux l acc, t ≠ [] := by
  intro l
  induction l with
  | nil =>
    intro acc t ht
    cases acc with
    | nil => cases ht
    | cons a as =>
      simp only [splitWsAux, List.mem_singleton] at ht
      subst ht
      simp
  | cons c cs ih =>
    intro acc t ht
    by_cases hw : c.isWhitespace = true
    · by_cases ha : acc = []
      · subst ha
        simp only [splitWsAux, hw, if_true, if_pos rfl] at ht
        exact ih [] t ht
      · simp only [splitWsAux, hw, if_true, if_neg ha] at ht
        rcases List.mem_cons.mp ht with h' | h'
        · subst h'
          simp [ha]
        · exact ih [] t h'
    · simp only [splitWsAux, hw] at ht
      exact ih (c :: acc) t (by simpa [hw] using ht)

theorem splitWsAux_ne_nil_of_acc {l : List Char} :
    ∀ acc : List Char, acc ≠ [] → splitWsAux l acc ≠ [] := by
  induction l with
  | nil =>
    intro acc ha
    cases acc with
    | nil => exact absurd rfl ha
    | cons a as => simp [splitWsAux]
  | cons c cs ih =>
    intro acc ha
    by_cases hw : c.isWhitespace = true
    · simp only [splitWsAux, hw, if_true, if_neg ha]
      simp
    · simp only [splitWsAux, hw, if_false]
      exact ih (c :: acc) (by simp)

theorem splitWsAux_eq_nil_iff {l : List Char} : splitWsAux l [] = [] ↔ allWs l := by
  induction l with
  | nil => exact ⟨fun _ => allWs_nil, fun _ => rfl⟩
  | cons c cs ih =>
    by_cases hw : c.isWhitespace = true
    · simp only [splitWsAux, hw, if_true, if_pos rfl]
      rw [ih, allWs_cons]
      simp [hw]
    · simp only [splitWsAux, hw, if_false]
      constructor
      · intro h
        exact absurd h (splitWsAux_ne_nil_of_acc [c] (by simp))
      · intro h
        exact absurd (allWs_cons.mp h).1 hw

theorem joinSpace_eq_nil {ts : List (List Char)} (hne : ∀ t ∈ ts, t ≠ []) :
    joinSpace ts = [] ↔ ts = [] := by
  cases ts with
  | nil => simp [joinSpace]
  | cons t rest =>
    cases rest with
    | nil => exact iff_of_false (hne t (by simp)) (by simp)
    | cons t2 rest2 => exact iff_of_false (by simp [joinSpace]) (by simp)

theorem mk_eq_empty_iff {l : List Char} : String.mk l = "" ↔ l = [] := by
  constructor
  · intro h
    exact congrArg String.data h
  · intro h
    rw [h]

theorem normalizeStr_eq_empty_iff (s : String) : normalizeStr s = "" ↔ allWs s.data := by
  unfold normalizeStr splitWs
  rw [mk_eq_empty_iff, joinSpace_eq_nil (splitWsAux_tokens_ne_nil _ _),
    splitWsAux_eq_nil_iff, allWs_stripEnds, allWs_replaceDoubleSpace, allWs_ampExpand]
  exact allWs_map_toLower

theorem normalize_category_eq_empty_iff (oc : Option String) :
    normalize_category oc = ""
      ↔ (match oc with
         | none => True
         | some c => allWs c.data) := by
  cases oc with
  | none => simp [normalize_category]
  | some c =>
    by_cases hc : c = ""
    · subst hc
      simp [normalize_category, allWs]
    · simp [normalize_category, hc, normalizeStr_eq_empty_iff]

theorem blankCategory_eq (s : SchemeRecord) :
    (normalize_category s.category == "") = blankCategory s := by
  cases hcat : s.category with
  | none => simp [normalize_category, blankCategory, hcat]
  | some c =>
    have h1 : (normalize_category (some c) == "") = true ↔ allWs c.data := by
      rw [beq_iff_eq, normalize_category_eq_empty_iff]
    have h2 : (c.data.all fun d => d.isWhitespace) = true ↔ allWs c.data := by
      rw [List.all_eq_true]
      exact Iff.rfl
    simp only [blankCategory, hcat]
    cases hcv : (normalize_category (some c) == "") with
    | false =>
      cases hav : (c.data.all fun d => d.isWhitespace) with
      | false => rfl
      | true => exact absurd (h1.mpr (h2.mp hav)) (by simp [hcv])
    | true =>
      cases hav : (c.data.all fun d => d.isWhitespace) with
      | false => exact absurd (h2.mpr (h1.mp hcv)) (by simp [hav])
      | true => rfl

/-- C10: a whitespace-only query does not fall back to the category listing;
it runs the category-match branch with a normalized target of the empty
string, so it selects exactly the records whose category is absent, empty, or
whitespace-only, and returns the no-match message when no such record
exists. -/
theorem whitespace_query_matches_blank_categories (schemes : List SchemeRecord)
    (q : String) (hne : schemes ≠ []) (hq : q ≠ "") (hws : allWs q.data) :
    yojanaTable schemes (some q) = matchBranch schemes q
  ∧ category_schemes schemes q = schemes.filter blankCategory
  ∧ (schemes.filter blankCategory = [] →
      yojanaTable schemes (some q) = noMatchMsg schemes) := by
  have hnorm : normalize_category (some q) = "" := by
    rw [normalize_category_eq_empty_iff]
    exact hws
  have hfilter : category_schemes schemes q = schemes.filter blankCategory := by
    unfold category_schemes
    rw [hnorm]
    exact List.filter_congr (fun s _ => blankCategory_eq s)
  refine ⟨?_, hfilter, fun h0 => ?_⟩
  · simp [yojanaTable, hne, hq]
  · have hempty : category_schemes schemes q = [] := by rw [hfilter, h0]
    simp [yojanaTable, hne, hq, matchBranch, hempty]

/-- Witness for C10: a single-space query against a table with one
`Education` scheme selects nothing and yields the no-match message. -/
theorem whitespace_query_matches_blank_categories_witness :
    (([⟨some "S", some "Education", none, none, none, none⟩] : List SchemeRecord) ≠ []
  ∧ (" " : String) ≠ ""
  ∧ allWs (" " : String).data)
  ∧ (yojanaTable [⟨some "S", some "Education", none, none, none, none⟩] (some " ")
      = matchBranch [⟨some "S", some "Education", none, none, none, none⟩] " "
  ∧ category_schemes [⟨some "S", some "Education", none, none, none, none⟩] " "
      = ([⟨some "S", some "Education", none, none, none, none⟩] : List SchemeRecord).filter
          blankCategory
  ∧ (([⟨some "S", some "Education", none, none, none, none⟩] : List SchemeRecord).filter
        blankCategory = [] →
      yojanaTable [⟨some "S", some "Education", none, none, none, none⟩] (some " ")
        = noMatchMsg [⟨some "S", some "Education", none, none, none, none⟩])) :=
  ⟨⟨by decide, by decide, by decide⟩,
    whitespace_query_matches_blank_categories _ " " (by decide) (by decide) (by decide)⟩

/-- C3 counterexample: for a record whose procedure list is empty and whose
other optional fields are absent, the guide still contains the procedure
header, so a section with an absent or empty source field is not always
omitted together with its header. -/
theorem empty_procedure_header_not_omitted :
    sevaTable [bareRecord] "x" = renderService "X" bareRecord
  ∧ containsStr (sevaTable [bareRecord] "x") "📝 *Procedure:*"
  ∧ bareRecord.procedure = [] := by
  refine ⟨rfl, ?_, rfl⟩
  decide

theorem contains_renderService_name (n : String) (r : ServiceRecord) :
    containsStr (renderService n r) n := by
  simp only [renderService]
  exact containsStr_appendL _ (containsStr_appendL _ (containsStr_appendL _
    (containsStr_appendL _ (containsStr_appendL _ (containsStr_appendL _
      (containsStr_appendR _ (containsStr_refl n)))))))

theorem contains_renderService_fees {r : ServiceRecord} (n : String) {u : String}
    (h : containsStr (feesSection r) u) : containsStr (renderService n r) u := by
  simp only [renderService]
  exact containsStr_appendL _ (containsStr_appendL _ (containsStr_appendL _
    (containsStr_appendL _ (containsStr_appendR _ h))))

theorem contains_renderService_proc {r : ServiceRecord} (n : String) {u : String}
    (h : containsStr (procSection r) u) : containsStr (renderService n r) u := by
  simp only [renderService]
  exact containsStr_appendL _ (containsStr_appendL _ (containsStr_appendL _
    (containsStr_appendR _ h)))

theorem contains_renderService_docs {r : ServiceRecord} (n : String) {u : String}
    (h : containsStr (docsSection r) u) : containsStr (renderService n r) u := by
  simp only [renderService]
  exact containsStr_appendL _ (containsStr_appendL _ (containsStr_appendR _ h))

theorem contains_renderService_link {r : ServiceRecord} (n : String) {u : String}
    (h : containsStr (linkSection r) u) : containsStr (renderService n r) u := by
  simp only [renderService]
  exact containsStr_appendL _ (containsStr_appendR _ h)

/-- C3 amended: when the scan selects record `r` (in particular when called
with `r`'s name in any letter-casing and `r` is the first such record), `seva`
returns a guide containing `r`'s name verbatim and every non-empty field of
`r`: one line per fee type, procedure steps numbered from 1 in stored order,
one bullet per required document, and the official-link line.  The documents
and official-link sections are omitted entirely when their field is absent or
empty, and the fees section is omitted when the field is absent; but an empty
fees dict still emits its header, and the procedure header line is always
emitted, even when the procedure list is empty. -/
theorem seva_guide_contains_fields (table : List ServiceRecord) (q n : String)
    (r : ServiceRecord) (hfind : findService table q = Except.ok (some r))
    (hn : r.name = some n) :
    sevaTable table q = renderService n r
  ∧ containsStr (sevaTable table q) n
  ∧ (∀ ft amt, (ft, amt) ∈ r.fees.getD [] →
      containsStr (sevaTable table q) ("- *" ++ ft ++ ":* " ++ amt ++ "\n"))
  ∧ (∀ k step, r.procedure.get? k = some step →
      containsStr (sevaTable table q) (toString (k + 1) ++ ". " ++ step ++ "\n"))
  ∧ (∀ d ∈ r.documents_required.getD [],
      containsStr (sevaTable table q) ("- " ++ d ++ "\n"))
  ∧ (∀ l, r.official_link = some l → l ≠ "" →
      containsStr (sevaTable table q) ("\n🔗 *Official Link:* " ++ l))
  ∧ containsStr (sevaTable table q) "📝 *Procedure:*\n"
  ∧ (r.fees = none → feesSection r = "")
  ∧ (r.fees = some [] → feesSection r = "💰 *Fees:*\n\n")
  ∧ (r.documents_required = none ∨ r.documents_required = some [] → docsSection r = "")
  ∧ (r.official_link = none ∨ r.official_link = some "" → linkSection r = "") := by
  have heq : sevaTable table q = renderService n r := by
    rw [sevaTable, hfind]
    simp [hn]
  refine ⟨heq, ?_, ?_, ?_, ?_, ?_, ?_, ?_, ?_, ?_, ?_⟩
  · rw [heq]
    exact contains_renderService_name n r
  · intro ft amt hmem
    rw [heq]
    cases hf : r.fees with
    | none => simp [hf] at hmem
    | some fs =>
      rw [hf, Option.getD_some] at hmem
      apply contains_renderService_fees n
      simp only [feesSection, hf]
      exact containsStr_appendL _ (containsStr_appendR _ (contains_concatStrs hmem))
  · intro k step hstep
    rw [heq]
    apply contains_renderService_proc n
    simp only [procSection]
    have hc := contains_numberedSteps r.procedure 1 k step hstep
    rw [Nat.add_comm 1 k] at hc
    exact containsStr_appendR _ hc
  · intro d hd
    rw [heq]
    cases hdoc : r.documents_required with
    | none => simp [hdoc] at hd
    | some ds =>
      rw [hdoc, Option.getD_some] at hd
      apply contains_renderService_docs n
      simp only [docsSection, hdoc, if_neg (List.ne_nil_of_mem hd)]
      exact containsStr_appendR _ (contains_concatStrs hd)
  · intro l hl hlne
    rw [heq]
    apply contains_renderService_link n
    simp only [linkSection, hl, if_neg hlne]
    exact containsStr_refl _
  · rw [heq]
    apply contains_renderService_proc n
    simp only [procSection]
    exact containsStr_appendL _ (containsStr_refl _)
  · intro hf
    simp [feesSection, hf]
  · intro hf
    simp only [feesSection, hf]
    rfl
  · intro hd
    rcases hd with hd | hd <;> simp [docsSection, hd]
  · intro hl
    rcases hl with hl | hl <;> simp [linkSection, hl]

/-- Witness for C3 at a concrete fully populated record, queried in a
different letter-casing. -/
theorem seva_guide_contains_fields_witness :
    (findService [passportFull] "passport" = Except.ok (some passportFull)
  ∧ passportFull.name = some "Passport")
  ∧ (sevaTable [passportFull] "passport" = renderService "Passport" passportFull
  ∧ containsStr (sevaTable [passportFull] "passport") "Passport"
  ∧ (∀ ft amt, (ft, amt) ∈ passportFull.fees.getD [] →
      containsStr (sevaTable [passportFull] "passport")
        ("- *" ++ ft ++ ":* " ++ amt ++ "\n"))
  ∧ (∀ k step, passportFull.procedure.get? k = some step →
      containsStr (sevaTable [passportFull] "passport")
        (toString (k + 1) ++ ". " ++ step ++ "\n"))
  ∧ (∀ d ∈ passportFull.documents_required.getD [],
      containsStr (sevaTable [passportFull] "passport") ("- " ++ d ++ "\n"))
  ∧ (∀ l, passportFull.official_link = some l → l ≠ "" →
      containsStr (sevaTable [passportFull] "passport")
        ("\n🔗 *Official Link:* " ++ l))
  ∧ containsStr (sevaTable [passportFull] "passport") "📝 *Procedure:*\n"
  ∧ (passportFull.fees = none → feesSection passportFull = "")
  ∧ (passportFull.fees = some [] → feesSection passportFull = "💰 *Fees:*\n\n")
  ∧ (passportFull.documents_required = none ∨ passportFull.documents_required = some [] →
      docsSection passportFull = "")
  ∧ (passportFull.official_link = none ∨ passportFull.official_link = some "" →
      linkSection passportFull = "")) :=
  ⟨⟨rfl, rfl⟩, seva_guide_contains_fields [passportFull] "passport" "Passport"
    passportFull rfl rfl⟩
